import Mathlib

/-!
Shallow embedding of src/jaxman/kalman_filter.py.

Machine floating-point arithmetic is modelled by an arbitrary commutative
ring `K` (instantiated with `ℚ` in concrete witnesses).  A JAX array of
shape `(k,)` becomes `Fin k → K`, a shape `(r, c)` array becomes
`Matrix (Fin r) (Fin c) K`, and a stacked time axis becomes a `List`.
`jnp.linalg.pinv` and the numpyro multivariate-normal log-density and
sampler are library functions outside this repository, so they enter the
embedding as abstract function parameters.  An observation entry that is
`NaN` (the missing sentinel) is embedded as `none : Option K`.
-/

namespace Kaxman

open Matrix

variable {K : Type} [CommRing K]

/-- Generic left-to-right scan with a carried state and stacked per-step
outputs, mirroring `jax.lax.scan` applied to a list of per-step inputs. -/
def scanList {C A B : Type} (f : C → A → C × B) : C → List A → C × List B
  | c, [] => (c, [])
  | c, a :: rest =>
    let s := f c a
    let r := scanList f s.1 rest
    (r.1, s.2 :: r.2)

/-- Generic scan with no per-step input, mirroring `jax.lax.scan` with
`xs=None` and an explicit `length` argument. -/
def scanN {C B : Type} (f : C → C × B) : C → Nat → C × List B
  | c, 0 => (c, [])
  | c, Nat.succ k =>
    let s := f c
    let r := scanN f s.1 k
    (r.1, s.2 :: r.2)

/-- Embedding of `_inflate_missing`: masks missing dimensions by zeroing the
corresponding rows of `H` and inflating the diagonal of `R`.  The boolean
mask plays the role of `non_valid_mask` (the `jnp.isnan` flags), and the
`obs` argument carries the raw observation values. -/
def inflate_missing {m n : Nat} (non_valid_mask : Fin m → Bool) (obs : Fin m → K)
    (H : Matrix (Fin m) (Fin n) K) (R : Matrix (Fin m) (Fin m) K) (missing_value : K) :
    (Fin m → K) × Matrix (Fin m) (Fin n) K × Matrix (Fin m) (Fin m) K :=
  let valid_mask_f : Fin m → K := fun i => if non_valid_mask i then 0 else 1
  let H_masked : Matrix (Fin m) (Fin n) K := Matrix.of fun i j => H i j * valid_mask_f i
  let R_masked : Matrix (Fin m) (Fin m) K :=
    R + Matrix.diagonal (fun i => (1 - valid_mask_f i) * missing_value)
  let obs_masked : Fin m → K := fun i => if non_valid_mask i then 0 else obs i
  (obs_masked, H_masked, R_masked)

/-- Embedding of the `KalmanFilter` model data.  Each parameter role is
embedded already resolved as a function of the timestep (and, for the
transition matrix only, of the previous mean), exactly subsuming the
`_get_*` accessors: a role declared as a plain value is a constant
function, a `None` offset is the zero function, and a `None`
`noise_transform` is the constant identity (with `noise_dim = state_dim`). -/
structure KalmanFilter (K : Type) (state_dim obs_dim noise_dim : Nat) where
  initial_mean : Fin state_dim → K
  initial_cov : Matrix (Fin state_dim) (Fin state_dim) K
  transition_matrix : Nat → (Fin state_dim → K) → Matrix (Fin state_dim) (Fin state_dim) K
  transition_cov : Nat → Matrix (Fin noise_dim) (Fin noise_dim) K
  observation_matrix : Nat → Matrix (Fin obs_dim) (Fin state_dim) K
  observation_cov : Nat → Matrix (Fin obs_dim) (Fin obs_dim) K
  transition_offset : Nat → Fin state_dim → K
  observation_offset : Nat → Fin obs_dim → K
  noise_transform : Nat → Matrix (Fin state_dim) (Fin noise_dim) K

/-- Type of the abstract stand-in for `jnp.linalg.pinv`: one pseudo-inverse
operation usable at every square size. -/
def Pinv (K : Type) : Type :=
  (k : Nat) → Matrix (Fin k) (Fin k) K → Matrix (Fin k) (Fin k) K

variable {n m p : Nat}

/-- Embedding of `KalmanFilter._predict`. -/
def predict (M : KalmanFilter K n m p) (mean : Fin n → K)
    (cov : Matrix (Fin n) (Fin n) K) (t : Nat) :
    (Fin n → K) × Matrix (Fin n) (Fin n) K :=
  let F_t := M.transition_matrix t mean
  let Q_t := M.transition_cov t
  let b_t := M.transition_offset t
  let G_t := M.noise_transform t
  (F_t.mulVec mean + b_t, F_t * cov * F_tᵀ + G_t * Q_t * G_tᵀ)

/-- Embedding of `KalmanFilter._update`.  The observation carries an
`Option` per dimension, `none` being the NaN missing sentinel, so
`jnp.isnan(obs)` becomes `Option.isNone` and the raw value at a present
dimension is recovered with `Option.getD` (the value at a missing entry is
irrelevant: the code immediately replaces it through `jnp.where`). -/
def update (pinv : Pinv K) (M : KalmanFilter K n m p) (mean_pred : Fin n → K)
    (cov_pred : Matrix (Fin n) (Fin n) K) (obs : Fin m → Option K) (t : Nat)
    (missing_value : K) : (Fin n → K) × Matrix (Fin n) (Fin n) K :=
  let H_t := M.observation_matrix t
  let R_t := M.observation_cov t
  let mask : Fin m → Bool := fun i => (obs i).isNone
  let r := inflate_missing mask (fun i => (obs i).getD 0) H_t R_t missing_value
  let obs_masked := r.1
  let H_masked := r.2.1
  let R_masked := r.2.2
  let S := H_masked * cov_pred * H_maskedᵀ + R_masked
  let S_pinv := pinv m S
  let Kg := cov_pred * H_maskedᵀ * S_pinv
  let residual := obs_masked - H_masked.mulVec mean_pred
  (mean_pred + Kg.mulVec residual, cov_pred - Kg * H_masked * cov_pred)

/-- Helper: when every dimension is missing, the masked observation matrix
produced by `inflate_missing` is the zero matrix. -/
lemma inflate_missing_H_all_missing {m' n' : Nat} (mask : Fin m' → Bool)
    (obs : Fin m' → K) (H : Matrix (Fin m') (Fin n') K)
    (R : Matrix (Fin m') (Fin m') K) (c : K) (h : ∀ i, mask i = true) :
    (inflate_missing mask obs H R c).2.1 = 0 := by
  ext i j
  simp [inflate_missing, h i]

/-- Helper: when every dimension is missing, the masked observation vector
produced by `inflate_missing` is the zero vector. -/
lemma inflate_missing_obs_all_missing {m' n' : Nat} (mask : Fin m' → Bool)
    (obs : Fin m' → K) (H : Matrix (Fin m') (Fin n') K)
    (R : Matrix (Fin m') (Fin m') K) (c : K) (h : ∀ i, mask i = true) :
    (inflate_missing mask obs H R c).1 = 0 := by
  funext i
  simp [inflate_missing, h i]

/-- C8: `_inflate_missing` computes exactly the advertised outputs: the
masked observation zeroes missing entries and keeps the rest, the masked
observation matrix zeroes the rows at missing dimensions and keeps the
other rows, and the masked observation covariance adds the inflation
constant on the diagonal at missing dimensions and leaves every other
entry unchanged. -/
theorem inflate_missing_exact (mask : Fin m → Bool) (obs : Fin m → K)
    (H : Matrix (Fin m) (Fin n) K) (R : Matrix (Fin m) (Fin m) K) (c : K) :
    (∀ i, (inflate_missing mask obs H R c).1 i = if mask i then 0 else obs i) ∧
    (∀ i j, (inflate_missing mask obs H R c).2.1 i j = if mask i then 0 else H i j) ∧
    (∀ i j, (inflate_missing mask obs H R c).2.2 i j =
      if mask i ∧ i = j then R i j + c else R i j) := by
  refine ⟨fun i => rfl, fun i j => ?_, fun i j => ?_⟩
  · by_cases h : mask i <;> simp [inflate_missing, h]
  · by_cases hij : i = j
    · subst hij
      by_cases h : mask i <;>
        simp [inflate_missing, Matrix.add_apply, Matrix.diagonal_apply, h]
    · by_cases h : mask i <;>
        simp [inflate_missing, Matrix.add_apply, Matrix.diagonal_apply, h, hij]

/-- C3: when every observation dimension at a timestep is missing, the
update step is an exact no-op: the filtered estimate equals the predicted
estimate, the masked observation matrix is zero, and the residual is the
zero vector. -/
theorem update_all_missing_is_noop (pinv : Pinv K) (M : KalmanFilter K n m p)
    (mean_pred : Fin n → K) (cov_pred : Matrix (Fin n) (Fin n) K)
    (obs : Fin m → Option K) (t : Nat) (c : K)
    (h : ∀ i, (obs i).isNone = true) :
    update pinv M mean_pred cov_pred obs t c = (mean_pred, cov_pred) ∧
    (inflate_missing (fun i => (obs i).isNone) (fun i => (obs i).getD 0)
        (M.observation_matrix t) (M.observation_cov t) c).2.1 = 0 ∧
    (inflate_missing (fun i => (obs i).isNone) (fun i => (obs i).getD 0)
        (M.observation_matrix t) (M.observation_cov t) c).1 -
      ((inflate_missing (fun i => (obs i).isNone) (fun i => (obs i).getD 0)
        (M.observation_matrix t) (M.observation_cov t) c).2.1).mulVec mean_pred = 0 := by
  have hH := inflate_missing_H_all_missing (fun i => (obs i).isNone)
    (fun i => (obs i).getD 0) (M.observation_matrix t) (M.observation_cov t) c h
  have hobs := inflate_missing_obs_all_missing (fun i => (obs i).isNone)
    (fun i => (obs i).getD 0) (M.observation_matrix t) (M.observation_cov t) c h
  refine ⟨?_, hH, ?_⟩
  · show (mean_pred + _, cov_pred - _) = (mean_pred, cov_pred)
    rw [show (fun i => (obs i).isNone) = fun i => (obs i).isNone from rfl] at hH hobs
    simp only [update, hH, hobs]
    simp [Matrix.zero_mulVec, Matrix.mulVec_zero]
  · rw [hH, hobs]
    simp [Matrix.zero_mulVec]

/-- Carry of the forward scan in `_forward_pass`: `(t, mean_t, cov_t, ll_so_far)`. -/
structure FCarry (K : Type) (n : Nat) where
  t : Nat
  mean : Fin n → K
  cov : Matrix (Fin n) (Fin n) K
  ll : K

/-- Per-step stacked outputs of the forward scan:
`(mean_pred, cov_pred, mean_up, cov_up)`. -/
structure StepOut (K : Type) (n : Nat) where
  mean_pred : Fin n → K
  cov_pred : Matrix (Fin n) (Fin n) K
  mean_up : Fin n → K
  cov_up : Matrix (Fin n) (Fin n) K

/-- Type of the abstract stand-in for the numpyro multivariate-normal
log-density: `logpdf loc covariance_matrix x` is `log_prob(x)` of
`MultivariateNormal(loc, covariance_matrix)`. -/
def LogPdf (K : Type) (m : Nat) : Type :=
  (Fin m → K) → Matrix (Fin m) (Fin m) K → (Fin m → K) → K

/-- One step of the scan inside `KalmanFilter._forward_pass` (the body
`scan_fn`): predict, accumulate the masked observation log-density, then
update. -/
def forward_step (pinv : Pinv K) (logpdf : LogPdf K m) (M : KalmanFilter K n m p)
    (missing_value : K) (carry : FCarry K n) (obs_t : Fin m → Option K) :
    FCarry K n × StepOut K n :=
  let pr := predict M carry.mean carry.cov carry.t
  let mean_pred := pr.1
  let cov_pred := pr.2
  let H_t := M.observation_matrix carry.t
  let R_t := M.observation_cov carry.t
  let d_t := M.observation_offset carry.t
  let obs_mask : Fin m → Bool := fun i => (obs_t i).isNone
  let r := inflate_missing obs_mask (fun i => (obs_t i).getD 0) H_t R_t missing_value
  let obs_masked := r.1
  let H_masked := r.2.1
  let R_masked := r.2.2
  let pred_mean_masked := H_masked.mulVec mean_pred + fun i => if obs_mask i then 0 else d_t i
  let pred_cov_masked := H_masked * cov_pred * H_maskedᵀ + R_masked
  let step_log_prob := logpdf pred_mean_masked pred_cov_masked obs_masked
  let new_ll_so_far := carry.ll + step_log_prob
  let upd := update pinv M mean_pred cov_pred obs_t carry.t missing_value
  (⟨carry.t + 1, upd.1, upd.2, new_ll_so_far⟩, ⟨mean_pred, cov_pred, upd.1, upd.2⟩)

/-- Result record of `_forward_pass`: the four stacked per-step sequences
plus the total log-likelihood. -/
structure ForwardResult (K : Type) (n : Nat) where
  predicted_means : List (Fin n → K)
  predicted_covs : List (Matrix (Fin n) (Fin n) K)
  filtered_means : List (Fin n → K)
  filtered_covs : List (Matrix (Fin n) (Fin n) K)
  total_ll : K

/-- Embedding of `KalmanFilter._forward_pass`: scans `forward_step` over the
observations starting from `(0, initial_mean, initial_cov, 0)`. -/
def forward_pass (pinv : Pinv K) (logpdf : LogPdf K m) (M : KalmanFilter K n m p)
    (missing_value : K) (observations : List (Fin m → Option K)) : ForwardResult K n :=
  let r := scanList (forward_step pinv logpdf M missing_value)
    ⟨0, M.initial_mean, M.initial_cov, 0⟩ observations
  ⟨r.2.map StepOut.mean_pred, r.2.map StepOut.cov_pred,
    r.2.map StepOut.mean_up, r.2.map StepOut.cov_up, r.1.ll⟩

/-- Embedding of `KalmanFilter.filter`: the filtered sequences plus the
total log-likelihood of the forward pass. -/
def filter (pinv : Pinv K) (logpdf : LogPdf K m) (M : KalmanFilter K n m p)
    (missing_value : K) (observations : List (Fin m → Option K)) :
    List (Fin n → K) × List (Matrix (Fin n) (Fin n) K) × K :=
  let fr := forward_pass pinv logpdf M missing_value observations
  (fr.filtered_means, fr.filtered_covs, fr.total_ll)

/-- Per-step predictive log-density as described in the specification: the
log-density of `obs_masked` under a multivariate Gaussian with mean
`H_masked · mean_pred + d_t` (`d_t` zeroed at missing dimensions) and
covariance `H_masked · cov_pred · H_maskedᵀ + R_masked`. -/
def spec_step_log_density (logpdf : LogPdf K m) (M : KalmanFilter K n m p)
    (missing_value : K) (t : Nat) (mean_pred : Fin n → K)
    (cov_pred : Matrix (Fin n) (Fin n) K) (obs_t : Fin m → Option K) : K :=
  let H_t := M.observation_matrix t
  let R_t := M.observation_cov t
  let d_t := M.observation_offset t
  let obs_mask : Fin m → Bool := fun i => (obs_t i).isNone
  let r := inflate_missing obs_mask (fun i => (obs_t i).getD 0) H_t R_t missing_value
  logpdf (r.2.1.mulVec mean_pred + fun i => if obs_mask i then 0 else d_t i)
    (r.2.1 * cov_pred * r.2.1ᵀ + r.2.2) r.1

/-- Per-step predictive log-densities recomputed from recorded predicted
means and covariances, starting the timestep counter at `t0`. -/
def spec_log_density_list (logpdf : LogPdf K m) (M : KalmanFilter K n m p)
    (missing_value : K) :
    Nat → List (Fin n → K) → List (Matrix (Fin n) (Fin n) K) →
      List (Fin m → Option K) → List K
  | _, _, _, [] => []
  | t, mp :: mps, cp :: cps, o :: os =>
    spec_step_log_density logpdf M missing_value t mp cp o ::
      spec_log_density_list logpdf M missing_value (t + 1) mps cps os
  | _, _, _, _ => []

/-- Helper: the total log-likelihood accumulated by the forward scan from an
arbitrary carry is the carried value plus the sum of the per-step
log-densities recomputed from the recorded predicted estimates. -/
lemma forward_scan_ll (pinv : Pinv K) (logpdf : LogPdf K m)
    (M : KalmanFilter K n m p) (c : K) :
    ∀ (observations : List (Fin m → Option K)) (carry : FCarry K n),
      ((scanList (forward_step pinv logpdf M c) carry observations).1).ll =
        carry.ll + (spec_log_density_list logpdf M c carry.t
          ((scanList (forward_step pinv logpdf M c) carry observations).2.map StepOut.mean_pred)
          ((scanList (forward_step pinv logpdf M c) carry observations).2.map StepOut.cov_pred)
          observations).sum := by
  intro observations
  induction observations with
  | nil => intro carry; simp [scanList, spec_log_density_list]
  | cons o os ih =>
    intro carry
    rw [scanList]
    rw [List.map_cons, List.map_cons, spec_log_density_list]
    rw [List.sum_cons]
    rw [ih]
    rw [show ((forward_step pinv logpdf M c carry o).1).ll =
      carry.ll + spec_step_log_density logpdf M c carry.t
        ((forward_step pinv logpdf M c carry o).2.mean_pred)
        ((forward_step pinv logpdf M c carry o).2.cov_pred) o from rfl]
    rw [show ((forward_step pinv logpdf M c carry o).1).t = carry.t + 1 from rfl]
    ring

/-- C4: the total log-likelihood returned by `filter` equals the sum over
all timesteps of the per-step log-densities of the masked observation under
the masked predictive Gaussian, the accumulator having started at 0. -/
theorem filter_loglik_is_sum_of_step_densities (pinv : Pinv K) (logpdf : LogPdf K m)
    (M : KalmanFilter K n m p) (c : K) (observations : List (Fin m → Option K)) :
    (filter pinv logpdf M c observations).2.2 =
      (spec_log_density_list logpdf M c 0
        (forward_pass pinv logpdf M c observations).predicted_means
        (forward_pass pinv logpdf M c observations).predicted_covs
        observations).sum := by
  have h := forward_scan_ll pinv logpdf M c observations
    ⟨0, M.initial_mean, M.initial_cov, 0⟩
  simpa [filter, forward_pass] using h

/-- Helper: a symmetric matrix minus its own gain correction
`C · Hᵀ · P · H · C` stays symmetric whenever `P` is symmetric. -/
lemma sub_gain_transpose {n' m' : Nat} (C : Matrix (Fin n') (Fin n') K)
    (H : Matrix (Fin m') (Fin n') K) (P : Matrix (Fin m') (Fin m') K)
    (hC : Cᵀ = C) (hP : Pᵀ = P) :
    (C - C * Hᵀ * P * H * C)ᵀ = C - C * Hᵀ * P * H * C := by
  simp [Matrix.transpose_sub, Matrix.transpose_mul, Matrix.transpose_transpose,
    Matrix.mul_assoc, hC, hP]

/-- Helper: the predicted covariance `F·cov·Fᵀ + G·Q·Gᵀ` is symmetric when
`cov` and `Q_t` are. -/
lemma predict_cov_transpose (M : KalmanFilter K n m p) (mean : Fin n → K)
    (cov : Matrix (Fin n) (Fin n) K) (t : Nat)
    (hQ : (M.transition_cov t)ᵀ = M.transition_cov t) (hcov : covᵀ = cov) :
    ((predict M mean cov t).2)ᵀ = (predict M mean cov t).2 := by
  simp [predict, Matrix.transpose_add, Matrix.transpose_mul, Matrix.transpose_transpose,
    Matrix.mul_assoc, hcov, hQ]

/-- Helper: the updated covariance `cov_pred − K·H_masked·cov_pred` is
symmetric when `cov_pred` and `R_t` are an the pseudo-inverse preserves
symmetry. -/
lemma update_cov_transpose (pinv : Pinv K) (M : KalmanFilter K n m p)
    (mean_pred : Fin n → K) (cov_pred : Matrix (Fin n) (Fin n) K)
    (obs : Fin m → Option K) (t : Nat) (c : K)
    (hR : (M.observation_cov t)ᵀ = M.observation_cov t)
    (hPinv : ∀ S : Matrix (Fin m) (Fin m) K, Sᵀ = S → (pinv m S)ᵀ = pinv m S)
    (hcov : cov_predᵀ = cov_pred) :
    ((update pinv M mean_pred cov_pred obs t c).2)ᵀ =
      (update pinv M mean_pred cov_pred obs t c).2 := by
  set Hm := (inflate_missing (fun i => (obs i).isNone) (fun i => (obs i).getD 0)
    (M.observation_matrix t) (M.observation_cov t) c).2.1 with hHmdef
  set Rm := (inflate_missing (fun i => (obs i).isNone) (fun i => (obs i).getD 0)
    (M.observation_matrix t) (M.observation_cov t) c).2.2 with hRmdef
  have hRm : Rmᵀ = Rm := by
    rw [hRmdef]
    simp [inflate_missing, Matrix.transpose_add, Matrix.diagonal_transpose, hR]
  have hS : (Hm * cov_pred * Hmᵀ + Rm)ᵀ = Hm * cov_pred * Hmᵀ + Rm := by
    simp [Matrix.transpose_add, Matrix.transpose_mul, Matrix.transpose_transpose,
      Matrix.mul_assoc, hcov, hRm]
  have hP := hPinv _ hS
  show (cov_pred - cov_pred * Hmᵀ * pinv m (Hm * cov_pred * Hmᵀ + Rm) * Hm * cov_pred)ᵀ =
    cov_pred - cov_pred * Hmᵀ * pinv m (Hm * cov_pred * Hmᵀ + Rm) * Hm * cov_pred
  exact sub_gain_transpose cov_pred Hm (pinv m (Hm * cov_pred * Hmᵀ + Rm)) hcov hP

/-- Helper: every filtered covariance stacked by the forward scan is
symmetric, provided the carried covariance is. -/
lemma forward_scan_cov_symm (pinv : Pinv K) (logpdf : LogPdf K m)
    (M : KalmanFilter K n m p) (c : K)
    (hQ : ∀ t, (M.transition_cov t)ᵀ = M.transition_cov t)
    (hR : ∀ t, (M.observation_cov t)ᵀ = M.observation_cov t)
    (hPinv : ∀ S : Matrix (Fin m) (Fin m) K, Sᵀ = S → (pinv m S)ᵀ = pinv m S) :
    ∀ (observations : List (Fin m → Option K)) (carry : FCarry K n),
      carry.covᵀ = carry.cov →
      ∀ o ∈ (scanList (forward_step pinv logpdf M c) carry observations).2,
        (o.cov_up)ᵀ = o.cov_up := by
  intro observations
  induction observations with
  | nil => intro carry _ o ho; simp [scanList] at ho
  | cons x xs ih =>
    intro carry h o ho
    have hpred : ((predict M carry.mean carry.cov carry.t).2)ᵀ =
        (predict M carry.mean carry.cov carry.t).2 :=
      predict_cov_transpose M carry.mean carry.cov carry.t (hQ carry.t) h
    have hup : ((update pinv M (predict M carry.mean carry.cov carry.t).1
        (predict M carry.mean carry.cov carry.t).2 x carry.t c).2)ᵀ =
        (update pinv M (predict M carry.mean carry.cov carry.t).1
        (predict M carry.mean carry.cov carry.t).2 x carry.t c).2 :=
      update_cov_transpose pinv M _ _ x carry.t c (hR carry.t) hPinv hpred
    simp only [scanList] at ho
    rcases List.mem_cons.1 ho with h1 | h2
    · subst h1
      exact hup
    · exact ih (forward_step pinv logpdf M c carry x).1 hup o h2

/-- C9: the predict step maps a symmetric covariance to a symmetric
predicted covariance, the update step maps a symmetric predicted covariance
to a symmetric updated covariance (using that the pseudo-inverse of the
symmetric innovation covariance is symmetric), and hence every covariance
produced by the filter is symmetric. -/
theorem filter_covariances_symmetric (pinv : Pinv K) (logpdf : LogPdf K m)
    (M : KalmanFilter K n m p) (c : K)
    (hQ : ∀ t, (M.transition_cov t)ᵀ = M.transition_cov t)
    (hR : ∀ t, (M.observation_cov t)ᵀ = M.observation_cov t)
    (hInit : (M.initial_cov)ᵀ = M.initial_cov)
    (hPinv : ∀ S : Matrix (Fin m) (Fin m) K, Sᵀ = S → (pinv m S)ᵀ = pinv m S) :
    (∀ (mean : Fin n → K) (cov : Matrix (Fin n) (Fin n) K) (t : Nat), covᵀ = cov →
      ((predict M mean cov t).2)ᵀ = (predict M mean cov t).2) ∧
    (∀ (mean_pred : Fin n → K) (cov_pred : Matrix (Fin n) (Fin n) K)
        (obs : Fin m → Option K) (t : Nat), cov_predᵀ = cov_pred →
      ((update pinv M mean_pred cov_pred obs t c).2)ᵀ =
        (update pinv M mean_pred cov_pred obs t c).2) ∧
    (∀ (observations : List (Fin m → Option K))
        (C : Matrix (Fin n) (Fin n) K),
      C ∈ (filter pinv logpdf M c observations).2.1 → Cᵀ = C) := by
  refine ⟨fun mean cov t hcov => predict_cov_transpose M mean cov t (hQ t) hcov,
    fun mean_pred cov_pred obs t hcov =>
      update_cov_transpose pinv M mean_pred cov_pred obs t c (hR t) hPinv hcov,
    fun observations C hC => ?_⟩
  have hmem : C ∈ (scanList (forward_step pinv logpdf M c)
      ⟨0, M.initial_mean, M.initial_cov, 0⟩ observations).2.map StepOut.cov_up := hC
  rcases List.mem_map.1 hmem with ⟨o, ho, rfl⟩
  exact forward_scan_cov_symm pinv logpdf M c hQ hR hPinv observations
    ⟨0, M.initial_mean, M.initial_cov, 0⟩ hInit o ho

/-- Embedding of `KalmanFilter.smooth`.  The pre-set snapshot buffers are
zero-initialized with the last entry set to the last filtered estimate
(`.at[-1].set`, a no-op on an empty buffer, matching the dropped
out-of-bounds write of jnp).  Exactly as in the code, the per-step outputs
of the backward scan are the full snapshot buffers obtained by writing the
current smoothed estimate into the pre-set buffer at index `i`, and the
function returns those stacked snapshots together with the forward-pass
log-likelihood. -/
def smooth (pinv : Pinv K) (logpdf : LogPdf K m) (M : KalmanFilter K n m p)
    (missing_value : K) (observations : List (Fin m → Option K)) :
    List (List (Fin n → K)) × List (List (Matrix (Fin n) (Fin n) K)) × K :=
  let fr := forward_pass pinv logpdf M missing_value observations
  let num_timesteps := observations.length
  let zvec : Fin n → K := fun _ => 0
  let zmat : Matrix (Fin n) (Fin n) K := 0
  let smoothed_means := (List.replicate num_timesteps zvec).set (num_timesteps - 1)
    (fr.filtered_means.getLastD zvec)
  let smoothed_covs := (List.replicate num_timesteps zmat).set (num_timesteps - 1)
    (fr.filtered_covs.getLastD zmat)
  let indices := (List.range (num_timesteps - 1)).reverse
  let r := scanList (fun carry i =>
    let mean_f := fr.filtered_means.getD i zvec
    let cov_f := fr.filtered_covs.getD i zmat
    let mean_p := fr.predicted_means.getD (i + 1) zvec
    let cov_p := fr.predicted_covs.getD (i + 1) zmat
    let F_t := M.transition_matrix (i + 1) mean_f
    let cov_p_inv := pinv n cov_p
    let A_t := cov_f * F_tᵀ * cov_p_inv
    let curr_mean_smooth := mean_f + A_t.mulVec (carry.1 - mean_p)
    let curr_cov_smooth := cov_f + A_t * (carry.2 - cov_p) * A_tᵀ
    ((curr_mean_smooth, curr_cov_smooth),
      (smoothed_means.set i curr_mean_smooth, smoothed_covs.set i curr_cov_smooth)))
    (fr.filtered_means.getLastD zvec, fr.filtered_covs.getLastD zmat) indices
  (r.2.map Prod.fst, r.2.map Prod.snd, fr.total_ll)

/-- C1: on a single-observation sequence (`T = 1`) the smoother returns
empty smoothed sequences instead of a length-1 sequence whose entry equals
the filtered estimate: the backward scan stacks one snapshot buffer per
processed index and there are `T − 1 = 0` of them, so the returned
sequences are not index-aligned with the input. -/
theorem smooth_singleton_returns_empty (pinv : Pinv K) (logpdf : LogPdf K m)
    (M : KalmanFilter K n m p) (c : K) (obs0 : Fin m → Option K) :
    (smooth pinv logpdf M c [obs0]).1 = [] ∧
    (smooth pinv logpdf M c [obs0]).2.1 = [] :=
  ⟨rfl, rfl⟩

/-- Helper: a scan stacks exactly one output per input. -/
lemma scanList_length {C A B : Type} (f : C → A → C × B) :
    ∀ (l : List A) (c : C), ((scanList f c l).2).length = l.length := by
  intro l
  induction l with
  | nil => intro c; rfl
  | cons a rest ih => intro c; simp [scanList, ih]

/-- C2: the filtered sequences returned by `filter` are index-aligned with
the observations (length `T`), but on a length-2 observation sequence the
sequences returned by `smooth` have length `T − 1 = 1`, not `T = 2`: each
entry is a full snapshot buffer stacked by the backward scan, so the
smoothed outputs are not index-aligned with the observations. -/
theorem filter_aligned_but_smooth_shorter (pinv : Pinv K) (logpdf : LogPdf K m)
    (M : KalmanFilter K n m p) (c : K) :
    (∀ observations : List (Fin m → Option K),
      (filter pinv logpdf M c observations).1.length = observations.length ∧
      (filter pinv logpdf M c observations).2.1.length = observations.length) ∧
    (∀ obs0 obs1 : Fin m → Option K,
      (smooth pinv logpdf M c [obs0, obs1]).1.length = 1 ∧
      (smooth pinv logpdf M c [obs0, obs1]).2.1.length = 1) := by
  constructor
  · intro observations
    constructor
    · show ((scanList (forward_step pinv logpdf M c)
        ⟨0, M.initial_mean, M.initial_cov, 0⟩ observations).2.map StepOut.mean_up).length =
        observations.length
      rw [List.length_map, scanList_length]
    · show ((scanList (forward_step pinv logpdf M c)
        ⟨0, M.initial_mean, M.initial_cov, 0⟩ observations).2.map StepOut.cov_up).length =
        observations.length
      rw [List.length_map, scanList_length]
  · exact fun obs0 obs1 => ⟨rfl, rfl⟩

/-- C5: called on the empty observation sequence, `filter` and `smooth` do
not fail; they return empty sequences and a zero log-likelihood. -/
theorem filter_smooth_empty_no_error (pinv : Pinv K) (logpdf : LogPdf K m)
    (M : KalmanFilter K n m p) (c : K) :
    filter pinv logpdf M c ([] : List (Fin m → Option K)) = ([], [], 0) ∧
    smooth pinv logpdf M c ([] : List (Fin m → Option K)) = ([], [], 0) :=
  ⟨rfl, rfl⟩

/-- Subkeys used at timestep `t` inside `sample`'s step function: the code
computes `rng_proc, rng_obs = jax.random.split(rng_key)` on the unmodified
outer `rng_key` at every iteration, so the resulting pair does not depend
on `t` or on the carried state. -/
def step_keys {Key : Type} (split : Key → Key × Key) (rng_key : Key) (t : Nat) :
    Key × Key :=
  split rng_key

/-- Embedding of `KalmanFilter.sample`.  The pseudo-random source is an
abstract `Key` type with an abstract `split`; `drawInit key mean cov`,
`drawP key Q` and `drawO key R` are the abstract multivariate-normal
samplers for the initial state, the process noise and the observation
noise. -/
def sample {Key : Type} (split : Key → Key × Key)
    (drawInit : Key → (Fin n → K) → Matrix (Fin n) (Fin n) K → (Fin n → K))
    (drawP : Key → Matrix (Fin p) (Fin p) K → (Fin p → K))
    (drawO : Key → Matrix (Fin m) (Fin m) K → (Fin m → K))
    (M : KalmanFilter K n m p) (rng_key : Key) (num_timesteps : Nat) :
    List (Fin n → K) × List (Fin m → K) :=
  let x0 := drawInit rng_key M.initial_mean M.initial_cov
  let r := scanN (fun carry =>
    let t := carry.1
    let x_prev := carry.2
    let F_t := M.transition_matrix t x_prev
    let Q_t := M.transition_cov t
    let b_t := M.transition_offset t
    let G_t := M.noise_transform t
    let H_t := M.observation_matrix t
    let R_t := M.observation_cov t
    let d_t := M.observation_offset t
    let ks := step_keys split rng_key t
    let w_t := drawP ks.1 Q_t
    let x_t := F_t.mulVec x_prev + b_t + G_t.mulVec w_t
    let v_t := drawO ks.2 R_t
    let y_t := H_t.mulVec x_t + d_t + v_t
    ((t + 1, x_t), (x_t, y_t))) (0, x0) num_timesteps
  (r.2.map Prod.fst, r.2.map Prod.snd)

/-- C6: the pseudo-random subkeys used for the noise draws are identical at
every timestep — the step splits the same outer key each iteration — so
distinct timesteps do not receive distinct sub-streams; concretely, on a
two-step horizon both process-noise draws use the single subkey
`(split rng_key).1`. -/
theorem sample_reuses_same_subkeys_every_step {Key : Type} (split : Key → Key × Key)
    (drawInit : Key → (Fin n → K) → Matrix (Fin n) (Fin n) K → (Fin n → K))
    (drawP : Key → Matrix (Fin p) (Fin p) K → (Fin p → K))
    (drawO : Key → Matrix (Fin m) (Fin m) K → (Fin m → K))
    (M : KalmanFilter K n m p) (rng_key : Key) :
    (∀ t u : Nat, step_keys split rng_key t = step_keys split rng_key u) ∧
    (sample split drawInit drawP drawO M rng_key 2).1 =
      (let x0 := drawInit rng_key M.initial_mean M.initial_cov
       let w0 := drawP (split rng_key).1 (M.transition_cov 0)
       let x1 := (M.transition_matrix 0 x0).mulVec x0 + M.transition_offset 0 +
         (M.noise_transform 0).mulVec w0
       let w1 := drawP (split rng_key).1 (M.transition_cov 1)
       let x2 := (M.transition_matrix 1 x1).mulVec x1 + M.transition_offset 1 +
         (M.noise_transform 1).mulVec w1
       [x1, x2]) :=
  ⟨fun _ _ => rfl, rfl⟩

/-- C10: sampling a zero-length horizon succeeds and returns two empty
trajectories; the internally drawn initial state is not returned. -/
theorem sample_zero_horizon {Key : Type} (split : Key → Key × Key)
    (drawInit : Key → (Fin n → K) → Matrix (Fin n) (Fin n) K → (Fin n → K))
    (drawP : Key → Matrix (Fin p) (Fin p) K → (Fin p → K))
    (drawO : Key → Matrix (Fin m) (Fin m) K → (Fin m → K))
    (M : KalmanFilter K n m p) (rng_key : Key) :
    sample split drawInit drawP drawO M rng_key 0 = ([], []) :=
  rfl

/-- Dot product of two equal-length lists (the inner step of a jnp
matrix-vector product). -/
def dotL (x y : List K) : K :=
  (List.zipWith (fun a b => a * b) x y).sum

/-- Shape behaviour of the jnp matrix-vector product `F @ v` on bare
nested lists: defined only when every row of `F` has the length of `v`;
mismatched inner dimensions raise an error in jax, embedded as `none`. -/
def matVecL (F : List (List K)) (v : List K) : Option (List K) :=
  if F.all (fun row => row.length == v.length) then
    some (F.map (fun row => dotL row v))
  else none

/-- Shape behaviour of jnp elementwise addition `x + y` under numpy
broadcasting for rank-1 operands: equal lengths add pointwise, a
length-one operand is silently stretched across the other, and any other
length combination raises an error, embedded as `none`. -/
def broadcastAdd (x y : List K) : Option (List K) :=
  if x.length == y.length then some (List.zipWith (fun a b => a + b) x y)
  else if y.length == 1 then some (x.map (fun a => a + y.headD 0))
  else if x.length == 1 then some (y.map (fun b => x.headD 0 + b))
  else none

/-- Shape behaviour of `mean_pred = F_t @ mean + b_t` in
`KalmanFilter._predict`, with the arrays kept as bare lists so that
wrong-shaped resolved parameters are representable: the code performs no
shape validation of its own, so the result is whatever the jnp operators
produce. -/
def predict_mean_shapes (F : List (List K)) (mean b : List K) : Option (List K) :=
  (matVecL F mean).bind (fun fm => broadcastAdd fm b)

/-- C7: with `state_dim = 2` and a transition offset that resolves to the
wrong shape `(1,)`, the predict-step mean computation does not fail: numpy
broadcasting silently stretches the offset across both state dimensions
and the computation proceeds. -/
theorem wrong_shaped_offset_is_silently_broadcast :
    predict_mean_shapes ([[1, 0], [0, 1]] : List (List ℤ)) [2, 3] [5] = some [7, 8] := by
  decide

/-- Concrete one-dimensional model instance used by the concrete witnesses. -/
def testModel : KalmanFilter ℤ 1 1 1 where
  initial_mean := fun _ => 0
  initial_cov := Matrix.of fun _ _ => 1
  transition_matrix := fun _ _ => Matrix.of fun _ _ => 1
  transition_cov := fun _ => Matrix.of fun _ _ => 1
  observation_matrix := fun _ => Matrix.of fun _ _ => 1
  observation_cov := fun _ => Matrix.of fun _ _ => 1
  transition_offset := fun _ _ => 0
  observation_offset := fun _ _ => 0
  noise_transform := fun _ => Matrix.of fun _ _ => 1

/-- Identity stand-in for the pseudo-inverse in the concrete witnesses; it
trivially preserves symmetry. -/
def testPinv : Pinv ℤ := fun _ S => S

/-- Constant stand-in for the log-density in the concrete witnesses. -/
def testLogpdf : LogPdf ℤ 1 := fun _ _ _ => 0

/-- Witness for the fully-missing no-op update at a concrete input. -/
theorem update_all_missing_is_noop_witness :
    ((none : Option ℤ).isNone = true) ∧
    update testPinv testModel (fun _ => 2) (Matrix.of fun _ _ => 3)
      (fun _ => (none : Option ℤ)) 0 5 =
      ((fun _ => 2), Matrix.of fun _ _ => 3) :=
  ⟨rfl, (update_all_missing_is_noop testPinv testModel (fun _ => 2)
    (Matrix.of fun _ _ => 3) (fun _ => none) 0 5 (fun _ => rfl)).1⟩

/-- Witness for covariance symmetry at a concrete one-dimensional model. -/
theorem filter_covariances_symmetric_witness :
    ((testModel.initial_cov)ᵀ = testModel.initial_cov) ∧
    ((update testPinv testModel (fun _ => 0) (Matrix.of fun _ _ => 1)
        (fun _ => some 1) 0 5).2)ᵀ =
      (update testPinv testModel (fun _ => 0) (Matrix.of fun _ _ => 1)
        (fun _ => some 1) 0 5).2 :=
  ⟨by decide, by
    have h1 : ((Matrix.of fun _ _ => (1 : ℤ)) : Matrix (Fin 1) (Fin 1) ℤ)ᵀ =
        ((Matrix.of fun _ _ => (1 : ℤ)) : Matrix (Fin 1) (Fin 1) ℤ) := by decide
    exact (filter_covariances_symmetric testPinv testLogpdf testModel 5
      (fun _ => h1) (fun _ => h1) h1 (fun _ hS => hS)).2.1 (fun _ => 0)
      (Matrix.of fun _ _ => 1) (fun _ => some 1) 0 h1⟩

end Kaxman
